import Mathlib

/-!
Shallow embedding of the tresays keystroke-timeline recorder and renderer.

The repository has two implementation files with the same architecture:
* src/treSaysPoC.js (embedded below under namespace PoC), and
* src/unnamed/part_000 (embedded under namespace Part000), a revision that
  adds an isPaused flag, a console warning on stray keyup, and a fallback
  container.

JavaScript semantics mapped into Lean:
* Date.now() timestamps are passed explicitly as an Int argument dNow; the
  successive Date.now() reads inside one handler are modelled as equal.
* A possibly-undefined value (event.keyCode, event.key) is an Option.
* The falsiness test on a string (the guard on sKey) is true for the
  missing value and for the empty string.
* The falsiness test on the _zero timestamp is true for null and for 0.
* The _keysDown object and the mLastEnds Map are association lists used
  only through lookup, insert and delete; iteration order is never used.
* console.warn calls are collected in an output list of (key, keyCode)
  pairs; a function with no warn call in its source emits the empty list.
* Number division in the drawer is modelled as exact division in Rat.
* DOM effects of the drawer (lane elements, gap and chunk rectangles) are
  modelled as an output trace of DrawOp values plus the set of lane ids
  existing in the surface.
-/

namespace TreSays

/-- Lookup in an association list, returning the value bound to the first
occurrence of the key; models property read on a JS object or Map.get. -/
def assoc {α β : Type} [DecidableEq α] : List (α × β) → α → Option β
  | [], _ => none
  | p :: t, k => if p.1 = k then some p.2 else assoc t k

/-- Removal of a key from an association list; models the JS delete
operator (keys are unique by construction, so removing every occurrence
of the key coincides with deleting the single entry). -/
def eraseAssoc {α β : Type} [DecidableEq α] : List (α × β) → α → List (α × β)
  | [], _ => []
  | p :: t, k => if p.1 = k then eraseAssoc t k else p :: eraseAssoc t k

/-- Map.set on an association list: bind the key to the value, replacing
any previous binding. -/
def setAssoc {α β : Type} [DecidableEq α] (l : List (α × β)) (k : α) (v : β) :
    List (α × β) :=
  (k, v) :: eraseAssoc l k

/-- A keyboard event as consumed by the handlers: its type string, its
possibly-missing numeric keyCode and its possibly-missing key label. -/
structure KeyEvent where
  type : String
  keyCode : Option Nat
  key : Option String
deriving DecidableEq

/-- An entry of the raw audit log aLogger, as pushed by logEvent. -/
structure RawEvent where
  type : String
  keyCode : Nat
  key : Option String
  offset : Int
  ts : Int
deriving DecidableEq

/-- A completed key-press record as pushed onto aRecord by endRecord.
The source field named end is called endOff here (end is reserved). -/
structure Rec where
  key : String
  keyCode : Nat
  start : Int
  endOff : Int
deriving DecidableEq

/-- Value of _zero right after the statement
if (!this._zero) this._zero = dNow. -/
def anchorZero (z : Option Int) (dNow : Int) : Int :=
  match z with
  | none => dNow
  | some v => if v == 0 then dNow else v

namespace PoC

/-- State of the Logger class of src/treSaysPoC.js.  Source fields _zero
and _keysDown are called zero and keysDown. -/
structure Logger where
  aLogger : List RawEvent
  aRecord : List Rec
  zero : Option Int
  keysDown : List (String × Int)
deriving DecidableEq

/-- The Logger constructor: empty logs, null zero, no keys down. -/
def Logger.init : Logger :=
  { aLogger := [], aRecord := [], zero := none, keysDown := [] }

/-- Logger.reset: clears _zero, _keysDown, aLogger and aRecord. -/
def Logger.reset (_ : Logger) : Logger :=
  { aLogger := [], aRecord := [], zero := none, keysDown := [] }

/-- Logger.logEvent: drops the event unless keyCode is defined, anchors
_zero on first use, then pushes a RawEvent with session offset. -/
def Logger.logEvent (L : Logger) (oEvent : KeyEvent) (dNow : Int) : Logger :=
  match oEvent.keyCode with
  | none => L
  | some kc =>
    let z := anchorZero L.zero dNow
    { L with zero := some z,
             aLogger := L.aLogger ++
               [{ type := oEvent.type, keyCode := kc, key := oEvent.key,
                  offset := dNow - z, ts := dNow }] }

/-- Logger.startRecord: returns unless sKey is truthy and sKeyCode is
defined; a key already down is a no-op; otherwise anchors _zero and opens
an interval keyed by the key label sKey. -/
def Logger.startRecord (L : Logger) (sKey : Option String)
    (sKeyCode : Option Nat) (dNow : Int) : Logger :=
  match sKey, sKeyCode with
  | some k, some _ =>
    if k = "" then L
    else
      match assoc L.keysDown k with
      | some _ => L
      | none =>
        let z := anchorZero L.zero dNow
        { L with zero := some z, keysDown := (k, dNow - z) :: L.keysDown }
  | _, _ => L

/-- Logger.endRecord: returns unless sKey is truthy and sKeyCode is
defined; with no open interval for the label it silently returns (this
file has no console.warn); otherwise pushes a Rec and deletes the open
interval.  The second component collects console.warn output, always
empty for this file. -/
def Logger.endRecord (L : Logger) (sKey : Option String)
    (sKeyCode : Option Nat) (dNow : Int) : Logger × List (String × Nat) :=
  match sKey, sKeyCode with
  | some k, some kc =>
    if k = "" then (L, [])
    else
      match assoc L.keysDown k with
      | none => (L, [])
      | some st =>
        ({ L with
            aRecord := L.aRecord ++
              [{ key := k, keyCode := kc, start := st,
                 endOff := dNow - L.zero.getD 0 }],
            keysDown := eraseAssoc L.keysDown k }, [])
  | _, _ => (L, [])

/-- The keyStart handler: logEvent then startRecord with the event key
and keyCode. -/
def Logger.keyStart (L : Logger) (oEvent : KeyEvent) (dNow : Int) : Logger :=
  Logger.startRecord (Logger.logEvent L oEvent dNow) oEvent.key oEvent.keyCode dNow

/-- The keyEnd handler: logEvent then endRecord with the event key and
keyCode. -/
def Logger.keyEnd (L : Logger) (oEvent : KeyEvent) (dNow : Int) :
    Logger × List (String × Nat) :=
  Logger.endRecord (Logger.logEvent L oEvent dNow) oEvent.key oEvent.keyCode dNow

end PoC

namespace Part000

/-- State of the Logger class of src/unnamed/part_000: the PoC fields
plus the isPaused flag. -/
structure Logger where
  aLogger : List RawEvent
  aRecord : List Rec
  zero : Option Int
  keysDown : List (String × Int)
  isPaused : Bool
deriving DecidableEq

/-- The constructor: empty state, not paused. -/
def Logger.init : Logger :=
  { aLogger := [], aRecord := [], zero := none, keysDown := [], isPaused := false }

/-- Logger.reset: clears everything and resumes. -/
def Logger.reset (_ : Logger) : Logger :=
  { aLogger := [], aRecord := [], zero := none, keysDown := [], isPaused := false }

/-- Modelled from the spec: the pause capability only raises or lowers
the isPaused flag; src exposes the field but contains no dedicated
toggle call. -/
def Logger.setPaused (L : Logger) (b : Bool) : Logger :=
  { L with isPaused := b }

/-- Logger.logEvent of part_000: returns while paused, otherwise as in
the PoC file. -/
def Logger.logEvent (L : Logger) (oEvent : KeyEvent) (dNow : Int) : Logger :=
  if L.isPaused then L
  else
    match oEvent.keyCode with
    | none => L
    | some kc =>
      let z := anchorZero L.zero dNow
      { L with zero := some z,
               aLogger := L.aLogger ++
                 [{ type := oEvent.type, keyCode := kc, key := oEvent.key,
                    offset := dNow - z, ts := dNow }] }

/-- Logger.startRecord of part_000: returns while paused, otherwise as
in the PoC file. -/
def Logger.startRecord (L : Logger) (sKey : Option String)
    (sKeyCode : Option Nat) (dNow : Int) : Logger :=
  if L.isPaused then L
  else
    match sKey, sKeyCode with
    | some k, some _ =>
      if k = "" then L
      else
        match assoc L.keysDown k with
        | some _ => L
        | none =>
          let z := anchorZero L.zero dNow
          { L with zero := some z, keysDown := (k, dNow - z) :: L.keysDown }
    | _, _ => L

/-- Logger.endRecord of part_000: returns while paused; a keyup without
keydown pushes a console.warn (collected as the (sKey, sKeyCode) pair in
the second component) and leaves the state unchanged. -/
def Logger.endRecord (L : Logger) (sKey : Option String)
    (sKeyCode : Option Nat) (dNow : Int) : Logger × List (String × Nat) :=
  if L.isPaused then (L, [])
  else
    match sKey, sKeyCode with
    | some k, some kc =>
      if k = "" then (L, [])
      else
        match assoc L.keysDown k with
        | none => (L, [(k, kc)])
        | some st =>
          ({ L with
              aRecord := L.aRecord ++
                [{ key := k, keyCode := kc, start := st,
                   endOff := dNow - L.zero.getD 0 }],
              keysDown := eraseAssoc L.keysDown k }, [])
    | _, _ => (L, [])

/-- The keyStart handler of part_000. -/
def Logger.keyStart (L : Logger) (oEvent : KeyEvent) (dNow : Int) : Logger :=
  Logger.startRecord (Logger.logEvent L oEvent dNow) oEvent.key oEvent.keyCode dNow

/-- The keyEnd handler of part_000. -/
def Logger.keyEnd (L : Logger) (oEvent : KeyEvent) (dNow : Int) :
    Logger × List (String × Nat) :=
  Logger.endRecord (Logger.logEvent L oEvent dNow) oEvent.key oEvent.keyCode dNow

end Part000

/-!
The LogDrawer.draw method has the same body in both source files (they
differ only in constructor fallback handling for the missing container,
which is outside the draw algorithm), so one embedding below covers both.
-/

/-- One visual effect of draw on the surface: creation of a labeled lane,
or a gap or chunk rectangle of a given pixel width appended to a lane. -/
inductive DrawOp where
  | newLane (keyCode : Nat) (label : String)
  | gap (keyCode : Nat) (widthPx : Rat)
  | chunk (keyCode : Nat) (widthPx : Rat)
deriving DecidableEq

/-- State of a LogDrawer: the ms-per-pixel scale, the aDrew list of
already-drawn records (identified by their position in the aRecord array,
which models JS object identity since the logger only ever appends),
the mLastEnds map, and the set of lane elements existing on the surface. -/
structure LogDrawer where
  MS_PER_PX : Int
  aDrew : List Nat
  mLastEnds : List (Nat × Int)
  lanes : List Nat
deriving DecidableEq

/-- The JS expression v OR default, as used for constructor options:
a missing or zero option falls back to the default. -/
def jsOrDefault (v : Option Int) (d : Int) : Int :=
  match v with
  | none => d
  | some x => if x = 0 then d else x

/-- The LogDrawer constructor: MS_PER_PX is options.msPerPxRate with
default 5; aDrew and mLastEnds start empty and the surface has no lanes
(the container is cleared).  refreshRate and the container handle play no
role in the draw algorithm and are not modelled. -/
def LogDrawer.init (msPerPxRate : Option Int) : LogDrawer :=
  { MS_PER_PX := jsOrDefault msPerPxRate 5, aDrew := [], mLastEnds := [], lanes := [] }

/-- A record paired with its position in the aRecord array; the tag
models the object reference used by aDrew.includes. -/
structure TRec where
  oRec : Rec
  tag : Nat
deriving DecidableEq

/-- Tag each record of an aRecord snapshot with its array position. -/
def tagRecords (rs : List Rec) : List TRec :=
  rs.enum.map (fun p => { oRec := p.2, tag := p.1 })

/-- Stable insertion by ascending start offset. -/
def insertByStart (r : TRec) : List TRec → List TRec
  | [] => [r]
  | x :: xs =>
    if r.oRec.start ≤ x.oRec.start then r :: x :: xs else x :: insertByStart r xs

/-- The sorted working copy aBuffer: a stable sort of the records by
ascending start, modelling Array.prototype.sort with comparator
a.start - b.start (stable per the ECMAScript specification). -/
def sortByStart : List TRec → List TRec
  | [] => []
  | x :: xs => insertByStart x (sortByStart xs)

/-- The accumulator of the reduce that collects one (keyCode, key) pair
per distinct keyCode, keeping the label of the first occurrence: a pair
is appended only when its keyCode is not yet a key of the accumulator. -/
def lanePairsAux (acc : List (Nat × String)) : List TRec → List (Nat × String)
  | [] => acc
  | r :: t =>
    lanePairsAux
      (match assoc acc r.oRec.keyCode with
       | some _ => acc
       | none => acc ++ [(r.oRec.keyCode, r.oRec.key)]) t

/-- The object built by aBuffer.reduce, as an association list in
insertion (first-encounter) order. -/
def lanePairs (buf : List TRec) : List (Nat × String) :=
  lanePairsAux [] buf

/-- Ordered insertion by ascending keyCode. -/
def insertAsc (p : Nat × String) : List (Nat × String) → List (Nat × String)
  | [] => [p]
  | q :: qs => if p.1 ≤ q.1 then p :: q :: qs else q :: insertAsc p qs

/-- Sort an association list by ascending numeric key. -/
def sortAsc : List (Nat × String) → List (Nat × String)
  | [] => []
  | p :: ps => insertAsc p (sortAsc ps)

/-- The aLanes array: Object.values of the reduce accumulator.  The
accumulator keys are the numeric keyCodes, so per the ECMAScript
own-property enumeration order (integer-like keys first, ascending; all
keyCodes are far below 2^32 - 1) the values come out sorted by ascending
keyCode, not in first-encounter order. -/
def collectLanes (buf : List TRec) : List (Nat × String) :=
  sortAsc (lanePairs buf)

/-- Body of the per-record forEach: compute the gap width from the
mLastEnds entry (missing entry read as 0), the chunk width from the
record span, update mLastEnds, append the gap and chunk rectangles, and
push the record onto aDrew. -/
def drawOneRec (ms : Int) (st : LogDrawer × List DrawOp) (r : TRec) :
    LogDrawer × List DrawOp :=
  let d := st.1
  let lastEnd : Int := (assoc d.mLastEnds r.oRec.keyCode).getD 0
  let gapW : Rat := ((r.oRec.start - lastEnd : Int) : Rat) / (ms : Rat)
  let chunkW : Rat := ((r.oRec.endOff - r.oRec.start : Int) : Rat) / (ms : Rat)
  ({ d with
      mLastEnds := setAssoc d.mLastEnds r.oRec.keyCode r.oRec.endOff,
      aDrew := d.aDrew ++ [r.tag] },
   st.2 ++ [DrawOp.gap r.oRec.keyCode gapW, DrawOp.chunk r.oRec.keyCode chunkW])

/-- The lane-element lookup and creation: if no lane element with this
keyCode exists on the surface, create and append a labeled one. -/
def ensureLane (st : LogDrawer × List DrawOp) (lane : Nat × String) :
    LogDrawer × List DrawOp :=
  if lane.1 ∈ st.1.lanes then st
  else ({ st.1 with lanes := st.1.lanes ++ [lane.1] },
        st.2 ++ [DrawOp.newLane lane.1 lane.2])

/-- The two filters and the forEach of the lane body: records of aBuffer
not yet in aDrew, restricted to this keyCode, drawn in order. -/
def drawNewRecs (ms : Int) (buf : List TRec) (kc : Nat)
    (st : LogDrawer × List DrawOp) : LogDrawer × List DrawOp :=
  ((buf.filter (fun r => decide (r.tag ∉ st.1.aDrew))).filter
      (fun r => r.oRec.keyCode == kc)).foldl (drawOneRec ms) st

/-- Body of the aLanes.forEach: ensure the lane element exists, then draw
the new records of that lane. -/
def drawLane (ms : Int) (buf : List TRec) (st : LogDrawer × List DrawOp)
    (lane : Nat × String) : LogDrawer × List DrawOp :=
  drawNewRecs ms buf lane.1 (ensureLane st lane)

/-- The draw pipeline on a well-formed aRecord array: sort, collect the
lanes, then process each lane. -/
def drawRecords (d : LogDrawer) (rs : List Rec) : LogDrawer × List DrawOp :=
  (collectLanes (sortByStart (tagRecords rs))).foldl
    (drawLane d.MS_PER_PX (sortByStart (tagRecords rs))) (d, [])

/-- View of the argument passed to draw: a missing logger is none, and a
logger whose aRecord field is not an array is some with aRecord none. -/
structure LoggerView where
  aRecord : Option (List Rec)
deriving DecidableEq

/-- LogDrawer.draw: the guard returns on a missing logger or a non-array
aRecord; otherwise runs the draw pipeline.  Identical in both source
files. -/
def LogDrawer.draw (d : LogDrawer) (oLogger : Option LoggerView) :
    LogDrawer × List DrawOp :=
  match oLogger with
  | none => (d, [])
  | some v =>
    match v.aRecord with
    | none => (d, [])
    | some rs => drawRecords d rs

/-- One observed keyboard notification, used to drive the PoC logger
through whole sessions. -/
inductive Action where
  | down (key : Option String) (keyCode : Option Nat) (t : Int)
  | up (key : Option String) (keyCode : Option Nat) (t : Int)

/-- Dispatch of one notification to the PoC handlers, as wired by
startLogging (document.onkeydown / document.onkeyup). -/
def applyAction (L : PoC.Logger) : Action → PoC.Logger
  | .down k kc t => PoC.Logger.keyStart L { type := "keydown", keyCode := kc, key := k } t
  | .up k kc t => (PoC.Logger.keyEnd L { type := "keyup", keyCode := kc, key := k } t).1

/-- State of the PoC logger after a whole session of notifications. -/
def runTrace (tr : List Action) : PoC.Logger :=
  tr.foldl applyAction PoC.Logger.init

/-!  Definitions used to state the claims. -/

/-- The RawEvent entries a single well-formed event contributes to the
raw log: one entry when the keyCode is present, none otherwise. -/
def rawOf (z : Option Int) (e : KeyEvent) (t : Int) : List RawEvent :=
  match e.keyCode with
  | none => []
  | some kc =>
    [{ type := e.type, keyCode := kc, key := e.key,
       offset := t - anchorZero z t, ts := t }]

/-- One step of the specification predicate for an open interval of key
label k: a well-formed KeyDown with that truthy label opens it, a
well-formed KeyUp with that label closes it, and every other
notification leaves it alone. -/
def stepOpen (k : String) (b : Bool) : Action → Bool
  | .down (some k2) (some _) _ => if k2 ≠ "" ∧ k2 = k then true else b
  | .up (some k2) (some _) _ => if k2 ≠ "" ∧ k2 = k then false else b
  | _ => b

/-- Specification predicate: after the trace, a KeyDown for label k has
been observed with no subsequent matching KeyUp. -/
def tracksOpen (tr : List Action) (k : String) : Bool :=
  tr.foldl (stepOpen k) false

/-- Number of open-interval entries stored for a key label. -/
def countFor (l : List (String × Int)) (k : String) : Nat :=
  (l.filter (fun p => p.1 == k)).length

/-- Specification-side first-occurrence label: the key field of the
first record of the buffer carrying the given keyCode. -/
def findLabel : List TRec → Nat → Option String
  | [], _ => none
  | r :: t, kc => if r.oRec.keyCode = kc then some r.oRec.key else findLabel t kc

/-- The lane creations contained in a draw output trace, in order. -/
def newLanesOf (ops : List DrawOp) : List (Nat × String) :=
  ops.filterMap (fun op =>
    match op with
    | .newLane kc lbl => some (kc, lbl)
    | _ => none)

/-- The event sequence of claim C2: press and release A twice. -/
def c2Trace : List Action :=
  [.down (some "A") (some 65) 1000, .up (some "A") (some 65) 1100,
   .down (some "A") (some 65) 1150, .up (some "A") (some 65) 1200]

/-- The records the spec expects for the C2 event sequence. -/
def c2Records : List Rec :=
  [{ key := "A", keyCode := 65, start := 0, endOff := 100 },
   { key := "A", keyCode := 65, start := 150, endOff := 200 }]

/-- Two presses of distinct keyCodes 49 and 97 that share the key label
1 (as the digit row and the numeric keypad do), then one release. -/
def c1Trace : List Action :=
  [.down (some "1") (some 49) 1000, .down (some "1") (some 97) 1010]

/-- The c1Trace presses followed by a release carrying keyCode 97. -/
def c1TraceUp : List Action :=
  c1Trace ++ [.up (some "1") (some 97) 1200]

/-- Two consecutive KeyDown of the key a with no intervening KeyUp. -/
def c6Trace : List Action :=
  [.down (some "a") (some 65) 1000, .down (some "a") (some 65) 1030]

/-- The duplicate presses of c6Trace followed by a single KeyUp. -/
def c6TraceUp : List Action :=
  c6Trace ++ [.up (some "a") (some 65) 1100]

/-- A logger state holding the key a down, used to witness claim C6. -/
def c6Open : PoC.Logger :=
  runTrace [.down (some "a") (some 65) 1000]

/-- A held key a (keyCode 65) followed by a further KeyDown of the same
keyCode 65 delivered with the label A, as pressing Shift during the
auto-repeat of the held key does. -/
def c6IdTrace : List Action :=
  [.down (some "a") (some 65) 1000, .down (some "A") (some 65) 1020]

/-- Records for claim C5: the record of keyCode 66 starts earlier, so
keyCode 66 is first in encounter order but second in numeric order. -/
def c5Records : List Rec :=
  [{ key := "b", keyCode := 66, start := 0, endOff := 5 },
   { key := "a", keyCode := 65, start := 10, endOff := 15 }]

/-- A paused part_000 logger with some prior state, used for claim C9. -/
def c9Paused : Part000.Logger :=
  Part000.Logger.setPaused
    { aLogger := [], aRecord := [{ key := "a", keyCode := 65, start := 0, endOff := 7 }],
      zero := some 1000, keysDown := [("q", 3)], isPaused := false } true

/-!  Association-list lemmas. -/

theorem assoc_erase {α β : Type} [DecidableEq α] (l : List (α × β)) (k k2 : α) :
    assoc (eraseAssoc l k2) k = if k = k2 then none else assoc l k := by
  induction l with
  | nil => simp [assoc, eraseAssoc]
  | cons p t ih =>
    simp only [eraseAssoc]
    by_cases h1 : p.1 = k2
    · rw [if_pos h1, ih]
      by_cases h3 : k = k2
      · simp [h3]
      · rw [if_neg h3, if_neg h3]
        simp only [assoc]
        rw [if_neg (by rw [h1]; exact fun h => h3 h.symm)]
    · rw [if_neg h1]
      simp only [assoc]
      by_cases h2 : p.1 = k
      · rw [if_pos h2, if_pos h2,
          if_neg (by rw [← h2]; exact fun hh => h1 hh)]
      · rw [if_neg h2, if_neg h2, ih]

theorem assoc_mem {α β : Type} [DecidableEq α] {l : List (α × β)} {k : α} {v : β}
    (h : assoc l k = some v) : (k, v) ∈ l := by
  induction l with
  | nil => simp [assoc] at h
  | cons p t ih =>
    by_cases hp : p.1 = k
    · simp only [assoc, if_pos hp] at h
      cases p with
      | mk a b =>
        cases hp
        cases h
        exact List.mem_cons_self _ _
    · simp only [assoc, if_neg hp] at h
      exact List.mem_cons_of_mem _ (ih h)

theorem assoc_none_iff {α β : Type} [DecidableEq α] (l : List (α × β)) (k : α) :
    assoc l k = none ↔ k ∉ l.map Prod.fst := by
  induction l with
  | nil => simp [assoc]
  | cons p t ih =>
    simp only [assoc, List.map_cons, List.mem_cons]
    by_cases hp : p.1 = k
    · simp [hp]
    · rw [if_neg hp, ih]
      constructor
      · intro h
        push_neg
        exact ⟨fun hk => hp hk.symm, h⟩
      · intro h
        push_neg at h
        exact h.2

theorem mem_iff_assoc {α β : Type} [DecidableEq α] {l : List (α × β)}
    (hnd : (l.map Prod.fst).Nodup) (k : α) (v : β) :
    (k, v) ∈ l ↔ assoc l k = some v := by
  induction l with
  | nil => simp [assoc]
  | cons p t ih =>
    rw [List.map_cons, List.nodup_cons] at hnd
    simp only [assoc, List.mem_cons]
    by_cases hp : p.1 = k
    · rw [if_pos hp]
      constructor
      · rintro (h | h)
        · rw [← h]
        · have hk : k ∈ List.map Prod.fst t := List.mem_map_of_mem Prod.fst h
          rw [← hp] at hk
          exact absurd hk hnd.1
      · intro h
        left
        cases p with
        | mk a b =>
          simp only at hp
          subst hp
          injection h with hv
          rw [← hv]
    · rw [if_neg hp, ← ih hnd.2]
      constructor
      · rintro (h | h)
        · exact absurd (by rw [← h] : p.1 = k) hp
        · exact h
      · exact Or.inr

theorem countFor_cons (p : String × Int) (t : List (String × Int)) (k : String) :
    countFor (p :: t) k = countFor t k + (if p.1 = k then 1 else 0) := by
  by_cases h : p.1 = k <;> simp [countFor, List.filter_cons, h]

theorem countFor_zero_of_assoc_none {l : List (String × Int)} {k : String}
    (h : assoc l k = none) : countFor l k = 0 := by
  induction l with
  | nil => rfl
  | cons p t ih =>
    rw [countFor_cons]
    by_cases hp : p.1 = k
    · simp [assoc, hp] at h
    · simp only [assoc, if_neg hp] at h
      simp [hp, ih h]

theorem countFor_erase (l : List (String × Int)) (k k2 : String) :
    countFor (eraseAssoc l k2) k = if k = k2 then 0 else countFor l k := by
  induction l with
  | nil => simp [countFor, eraseAssoc]
  | cons p t ih =>
    simp only [eraseAssoc]
    by_cases h1 : p.1 = k2
    · rw [if_pos h1, ih]
      by_cases h3 : k = k2
      · simp [h3]
      · rw [if_neg h3, if_neg h3, countFor_cons,
          if_neg (by rw [h1]; exact fun h => h3 h.symm)]
        simp
    · rw [if_neg h1, countFor_cons, ih]
      by_cases h3 : k = k2
      · rw [if_pos h3, if_pos h3,
          if_neg (by rw [h3]; exact fun h => h1 h)]
      · rw [if_neg h3, if_neg h3, countFor_cons]

/-!  Per-operation lemmas for the PoC logger. -/

theorem PoC.logEvent_keysDown (L : PoC.Logger) (e : KeyEvent) (t : Int) :
    (PoC.Logger.logEvent L e t).keysDown = L.keysDown := by
  cases h : e.keyCode <;> simp [PoC.Logger.logEvent, h]

theorem PoC.logEvent_aRecord (L : PoC.Logger) (e : KeyEvent) (t : Int) :
    (PoC.Logger.logEvent L e t).aRecord = L.aRecord := by
  cases h : e.keyCode <;> simp [PoC.Logger.logEvent, h]

theorem PoC.logEvent_aLogger (L : PoC.Logger) (e : KeyEvent) (t : Int) :
    (PoC.Logger.logEvent L e t).aLogger = L.aLogger ++ rawOf L.zero e t := by
  cases h : e.keyCode <;> simp [PoC.Logger.logEvent, rawOf, h]

theorem PoC.startRecord_aLogger (L : PoC.Logger) (k : Option String)
    (kc : Option Nat) (t : Int) :
    (PoC.Logger.startRecord L k kc t).aLogger = L.aLogger := by
  cases k with
  | none => cases kc <;> rfl
  | some s =>
    cases kc with
    | none => rfl
    | some c =>
      simp only [PoC.Logger.startRecord]
      split_ifs with h
      · rfl
      · cases ha : assoc L.keysDown s <;> simp [ha]

theorem PoC.endRecord_aLogger (L : PoC.Logger) (k : Option String)
    (kc : Option Nat) (t : Int) :
    (PoC.Logger.endRecord L k kc t).1.aLogger = L.aLogger := by
  cases k with
  | none => cases kc <;> rfl
  | some s =>
    cases kc with
    | none => rfl
    | some c =>
      simp only [PoC.Logger.endRecord]
      split_ifs with h
      · rfl
      · cases ha : assoc L.keysDown s <;> simp [ha]

/-!  Per-operation lemmas for the part_000 logger (unpaused). -/

theorem Part000.logEvent_isPaused (L : Part000.Logger) (e : KeyEvent) (t : Int) :
    (Part000.Logger.logEvent L e t).isPaused = L.isPaused := by
  by_cases hp : L.isPaused
  · simp [Part000.Logger.logEvent, hp]
  · cases h : e.keyCode <;> simp [Part000.Logger.logEvent, hp, h]

theorem Part000.logEvent_zero_keysDown (L : Part000.Logger) (e : KeyEvent) (t : Int) :
    (Part000.Logger.logEvent L e t).keysDown = L.keysDown ∧
      (Part000.Logger.logEvent L e t).aRecord = L.aRecord := by
  by_cases hp : L.isPaused
  · simp [Part000.Logger.logEvent, hp]
  · cases h : e.keyCode <;> simp [Part000.Logger.logEvent, hp, h]

theorem Part000.logEvent_aLogger_p000 (L : Part000.Logger) (e : KeyEvent) (t : Int)
    (hp : L.isPaused = false) :
    (Part000.Logger.logEvent L e t).aLogger = L.aLogger ++ rawOf L.zero e t := by
  cases h : e.keyCode <;> simp [Part000.Logger.logEvent, rawOf, hp, h]

theorem Part000.startRecord_aLogger_p000 (L : Part000.Logger) (k : Option String)
    (kc : Option Nat) (t : Int) :
    (Part000.Logger.startRecord L k kc t).aLogger = L.aLogger := by
  by_cases hp : L.isPaused
  · simp [Part000.Logger.startRecord, hp]
  · cases k with
    | none => cases kc <;> simp [Part000.Logger.startRecord, hp]
    | some s =>
      cases kc with
      | none => simp [Part000.Logger.startRecord, hp]
      | some c =>
        simp only [Part000.Logger.startRecord, hp, Bool.false_eq_true, if_false]
        split_ifs with h
        · rfl
        · cases ha : assoc L.keysDown s <;> simp [ha]

theorem Part000.endRecord_aLogger_p000 (L : Part000.Logger) (k : Option String)
    (kc : Option Nat) (t : Int) :
    (Part000.Logger.endRecord L k kc t).1.aLogger = L.aLogger := by
  by_cases hp : L.isPaused
  · simp [Part000.Logger.endRecord, hp]
  · cases k with
    | none => cases kc <;> simp [Part000.Logger.endRecord, hp]
    | some s =>
      cases kc with
      | none => simp [Part000.Logger.endRecord, hp]
      | some c =>
        simp only [Part000.Logger.endRecord, hp, Bool.false_eq_true, if_false]
        split_ifs with h
        · rfl
        · cases ha : assoc L.keysDown s <;> simp [ha]

/-!  Open-interval invariant machinery for the PoC logger. -/

theorem assoc_applyAction (L : PoC.Logger) (a : Action) (k : String) :
    (assoc (applyAction L a).keysDown k).isSome =
      stepOpen k ((assoc L.keysDown k).isSome) a := by
  cases a with
  | down key kc t =>
    cases key with
    | none =>
      cases kc <;>
        simp [applyAction, PoC.Logger.keyStart, PoC.Logger.startRecord,
          stepOpen, PoC.logEvent_keysDown]
    | some s =>
      cases kc with
      | none =>
        simp [applyAction, PoC.Logger.keyStart, PoC.Logger.startRecord,
          stepOpen, PoC.logEvent_keysDown]
      | some c =>
        simp only [applyAction, PoC.Logger.keyStart, PoC.Logger.startRecord,
          stepOpen]
        by_cases hs : s = ""
        · simp [hs, PoC.logEvent_keysDown]
        · rw [if_neg hs]
          rw [PoC.logEvent_keysDown]
          cases ha : assoc L.keysDown s with
          | some v =>
            by_cases hk : s = k
            · subst hk
              simp [PoC.logEvent_keysDown, ha, hs]
            · simp [PoC.logEvent_keysDown, hs, hk]
          | none =>
            by_cases hk : s = k
            · subst hk
              simp [assoc, PoC.logEvent_keysDown, hs]
            · simp [assoc, PoC.logEvent_keysDown, hs, hk]
  | up key kc t =>
    cases key with
    | none =>
      cases kc <;>
        simp [applyAction, PoC.Logger.keyEnd, PoC.Logger.endRecord,
          stepOpen, PoC.logEvent_keysDown]
    | some s =>
      cases kc with
      | none =>
        simp [applyAction, PoC.Logger.keyEnd, PoC.Logger.endRecord,
          stepOpen, PoC.logEvent_keysDown]
      | some c =>
        simp only [applyAction, PoC.Logger.keyEnd, PoC.Logger.endRecord,
          stepOpen]
        by_cases hs : s = ""
        · simp [hs, PoC.logEvent_keysDown]
        · rw [if_neg hs]
          rw [PoC.logEvent_keysDown]
          cases ha : assoc L.keysDown s with
          | none =>
            by_cases hk : s = k
            · subst hk
              simp [PoC.logEvent_keysDown, ha, hs]
            · simp [PoC.logEvent_keysDown, hs, hk]
          | some v =>
            by_cases hk : s = k
            · subst hk
              simp [PoC.logEvent_keysDown, hs, assoc_erase]
            · have hks : ¬ k = s := fun h => hk h.symm
              simp [PoC.logEvent_keysDown, assoc_erase, hs, hk, hks]

theorem assoc_runTrace (tr : List Action) :
    ∀ (L : PoC.Logger) (k : String),
      (assoc ((tr.foldl applyAction L).keysDown) k).isSome =
        tr.foldl (stepOpen k) ((assoc L.keysDown k).isSome) := by
  induction tr with
  | nil => intro L k; rfl
  | cons a t ih =>
    intro L k
    simp only [List.foldl_cons]
    rw [ih, assoc_applyAction]

theorem countFor_applyAction (L : PoC.Logger) (a : Action)
    (h : ∀ k2, countFor L.keysDown k2 ≤ 1) (k : String) :
    countFor (applyAction L a).keysDown k ≤ 1 := by
  cases a with
  | down key kc t =>
    cases key with
    | none =>
      cases kc <;>
        simp [applyAction, PoC.Logger.keyStart, PoC.Logger.startRecord,
          PoC.logEvent_keysDown, h k]
    | some s =>
      cases kc with
      | none =>
        simp [applyAction, PoC.Logger.keyStart, PoC.Logger.startRecord,
          PoC.logEvent_keysDown, h k]
      | some c =>
        simp only [applyAction, PoC.Logger.keyStart, PoC.Logger.startRecord]
        by_cases hs : s = ""
        · simp [hs, PoC.logEvent_keysDown, h k]
        · rw [if_neg hs, PoC.logEvent_keysDown]
          cases ha : assoc L.keysDown s with
          | some v => simp [PoC.logEvent_keysDown, h k]
          | none =>
            simp only [PoC.logEvent_keysDown, countFor_cons]
            by_cases hk : s = k
            · subst hk
              rw [countFor_zero_of_assoc_none ha, if_pos rfl]
            · rw [if_neg hk]
              simp [h k]
  | up key kc t =>
    cases key with
    | none =>
      cases kc <;>
        simp [applyAction, PoC.Logger.keyEnd, PoC.Logger.endRecord,
          PoC.logEvent_keysDown, h k]
    | some s =>
      cases kc with
      | none =>
        simp [applyAction, PoC.Logger.keyEnd, PoC.Logger.endRecord,
          PoC.logEvent_keysDown, h k]
      | some c =>
        simp only [applyAction, PoC.Logger.keyEnd, PoC.Logger.endRecord]
        by_cases hs : s = ""
        · simp [hs, PoC.logEvent_keysDown, h k]
        · rw [if_neg hs, PoC.logEvent_keysDown]
          cases ha : assoc L.keysDown s with
          | none => simp [PoC.logEvent_keysDown, h k]
          | some v =>
            simp only [PoC.logEvent_keysDown, countFor_erase]
            by_cases hk : k = s
            · simp [hk]
            · simp [hk, h k]

theorem countFor_runTrace (tr : List Action) :
    ∀ (L : PoC.Logger), (∀ k2, countFor L.keysDown k2 ≤ 1) →
      ∀ k, countFor ((tr.foldl applyAction L).keysDown) k ≤ 1 := by
  induction tr with
  | nil => intro L h k; exact h k
  | cons a t ih =>
    intro L h k
    simp only [List.foldl_cons]
    exact ih (applyAction L a) (countFor_applyAction L a h) k

/-!  Drawer lemmas for idempotence and lane ordering. -/

theorem drawOneRec_aDrew (ms : Int) (st : LogDrawer × List DrawOp) (r : TRec) :
    (drawOneRec ms st r).1.aDrew = st.1.aDrew ++ [r.tag] := rfl

theorem drawOneRec_lanes (ms : Int) (st : LogDrawer × List DrawOp) (r : TRec) :
    (drawOneRec ms st r).1.lanes = st.1.lanes := rfl

theorem foldl_drawOneRec_lanes (ms : Int) (l : List TRec) :
    ∀ st : LogDrawer × List DrawOp,
      (l.foldl (drawOneRec ms) st).1.lanes = st.1.lanes := by
  induction l with
  | nil => intro st; rfl
  | cons x t ih =>
    intro st
    rw [List.foldl_cons, ih, drawOneRec_lanes]

theorem foldl_drawOneRec_aDrew_mono (ms : Int) (l : List TRec) :
    ∀ (st : LogDrawer × List DrawOp) (tg : Nat),
      tg ∈ st.1.aDrew → tg ∈ (l.foldl (drawOneRec ms) st).1.aDrew := by
  induction l with
  | nil => intro st tg h; exact h
  | cons x t ih =>
    intro st tg h
    rw [List.foldl_cons]
    exact ih _ tg (by rw [drawOneRec_aDrew]; exact List.mem_append_left _ h)

theorem foldl_drawOneRec_covers (ms : Int) (l : List TRec) :
    ∀ (st : LogDrawer × List DrawOp) (r : TRec), r ∈ l →
      r.tag ∈ (l.foldl (drawOneRec ms) st).1.aDrew := by
  induction l with
  | nil => intro st r h; cases h
  | cons x t ih =>
    intro st r hr
    rw [List.foldl_cons]
    rcases List.mem_cons.mp hr with h | h
    · subst h
      exact foldl_drawOneRec_aDrew_mono ms t _ r.tag
        (by rw [drawOneRec_aDrew]; exact List.mem_append_right _ (List.mem_singleton.mpr rfl))
    · exact ih _ r h

theorem ensureLane_aDrew (st : LogDrawer × List DrawOp) (lane : Nat × String) :
    (ensureLane st lane).1.aDrew = st.1.aDrew := by
  rw [ensureLane]
  split_ifs <;> rfl

theorem ensureLane_lanes_mem (st : LogDrawer × List DrawOp) (lane : Nat × String) :
    lane.1 ∈ (ensureLane st lane).1.lanes := by
  rw [ensureLane]
  split_ifs with h
  · exact h
  · exact List.mem_append_right _ (List.mem_singleton.mpr rfl)

theorem ensureLane_lanes_mono (st : LogDrawer × List DrawOp) (lane : Nat × String)
    (x : Nat) (h : x ∈ st.1.lanes) : x ∈ (ensureLane st lane).1.lanes := by
  rw [ensureLane]
  split_ifs
  · exact h
  · exact List.mem_append_left _ h

theorem ensureLane_of_mem {st : LogDrawer × List DrawOp} {lane : Nat × String}
    (h : lane.1 ∈ st.1.lanes) : ensureLane st lane = st := by
  rw [ensureLane, if_pos h]

theorem drawNewRecs_lanes (ms : Int) (buf : List TRec) (kc : Nat)
    (st : LogDrawer × List DrawOp) :
    (drawNewRecs ms buf kc st).1.lanes = st.1.lanes :=
  foldl_drawOneRec_lanes ms _ st

theorem drawNewRecs_aDrew_mono (ms : Int) (buf : List TRec) (kc : Nat)
    (st : LogDrawer × List DrawOp) (tg : Nat) (h : tg ∈ st.1.aDrew) :
    tg ∈ (drawNewRecs ms buf kc st).1.aDrew :=
  foldl_drawOneRec_aDrew_mono ms _ st tg h

theorem drawNewRecs_covers (ms : Int) (buf : List TRec) (kc : Nat)
    (st : LogDrawer × List DrawOp) (r : TRec) (hr : r ∈ buf)
    (hkc : r.oRec.keyCode = kc) :
    r.tag ∈ (drawNewRecs ms buf kc st).1.aDrew := by
  by_cases h : r.tag ∈ st.1.aDrew
  · exact drawNewRecs_aDrew_mono ms buf kc st r.tag h
  · apply foldl_drawOneRec_covers ms _ st r
    apply List.mem_filter.mpr
    refine ⟨List.mem_filter.mpr ⟨hr, ?_⟩, ?_⟩
    · simpa using h
    · simpa using hkc

theorem drawNewRecs_noop {ms : Int} {buf : List TRec} {kc : Nat}
    {st : LogDrawer × List DrawOp} (h : ∀ r ∈ buf, r.tag ∈ st.1.aDrew) :
    drawNewRecs ms buf kc st = st := by
  rw [drawNewRecs]
  have : buf.filter (fun r => decide (r.tag ∉ st.1.aDrew)) = [] := by
    apply List.filter_eq_nil_iff.mpr
    intro r hr
    simpa using h r hr
  rw [this]
  rfl

theorem drawLane_lanes_mem (ms : Int) (buf : List TRec)
    (st : LogDrawer × List DrawOp) (lane : Nat × String) :
    lane.1 ∈ (drawLane ms buf st lane).1.lanes := by
  rw [drawLane, drawNewRecs_lanes]
  exact ensureLane_lanes_mem st lane

theorem drawLane_lanes_mono (ms : Int) (buf : List TRec)
    (st : LogDrawer × List DrawOp) (lane : Nat × String) (x : Nat)
    (h : x ∈ st.1.lanes) : x ∈ (drawLane ms buf st lane).1.lanes := by
  rw [drawLane, drawNewRecs_lanes]
  exact ensureLane_lanes_mono st lane x h

theorem drawLane_aDrew_mono (ms : Int) (buf : List TRec)
    (st : LogDrawer × List DrawOp) (lane : Nat × String) (tg : Nat)
    (h : tg ∈ st.1.aDrew) : tg ∈ (drawLane ms buf st lane).1.aDrew := by
  rw [drawLane]
  exact drawNewRecs_aDrew_mono ms buf lane.1 _ tg (by rw [ensureLane_aDrew]; exact h)

theorem drawLane_covers (ms : Int) (buf : List TRec)
    (st : LogDrawer × List DrawOp) (lane : Nat × String) (r : TRec)
    (hr : r ∈ buf) (hkc : r.oRec.keyCode = lane.1) :
    r.tag ∈ (drawLane ms buf st lane).1.aDrew :=
  drawNewRecs_covers ms buf lane.1 _ r hr hkc

theorem drawLane_noop {ms : Int} {buf : List TRec}
    {st : LogDrawer × List DrawOp} {lane : Nat × String}
    (h1 : lane.1 ∈ st.1.lanes) (h2 : ∀ r ∈ buf, r.tag ∈ st.1.aDrew) :
    drawLane ms buf st lane = st := by
  rw [drawLane, ensureLane_of_mem h1, drawNewRecs_noop h2]

theorem foldLanes_lanes_mono (ms : Int) (buf : List TRec)
    (lanes : List (Nat × String)) :
    ∀ (st : LogDrawer × List DrawOp) (x : Nat), x ∈ st.1.lanes →
      x ∈ (lanes.foldl (drawLane ms buf) st).1.lanes := by
  induction lanes with
  | nil => intro st x h; exact h
  | cons q t ih =>
    intro st x h
    rw [List.foldl_cons]
    exact ih _ x (drawLane_lanes_mono ms buf st q x h)

theorem foldLanes_lanes_mem (ms : Int) (buf : List TRec)
    (lanes : List (Nat × String)) :
    ∀ (st : LogDrawer × List DrawOp) (p : Nat × String), p ∈ lanes →
      p.1 ∈ (lanes.foldl (drawLane ms buf) st).1.lanes := by
  induction lanes with
  | nil => intro st p h; cases h
  | cons q t ih =>
    intro st p hp
    rw [List.foldl_cons]
    rcases List.mem_cons.mp hp with h | h
    · subst h
      exact foldLanes_lanes_mono ms buf t _ p.1 (drawLane_lanes_mem ms buf st p)
    · exact ih _ p h

theorem foldLanes_aDrew_mono (ms : Int) (buf : List TRec)
    (lanes : List (Nat × String)) :
    ∀ (st : LogDrawer × List DrawOp) (tg : Nat), tg ∈ st.1.aDrew →
      tg ∈ (lanes.foldl (drawLane ms buf) st).1.aDrew := by
  induction lanes with
  | nil => intro st tg h; exact h
  | cons q t ih =>
    intro st tg h
    rw [List.foldl_cons]
    exact ih _ tg (drawLane_aDrew_mono ms buf st q tg h)

theorem foldLanes_covers (ms : Int) (buf : List TRec)
    (lanes : List (Nat × String)) :
    ∀ st : LogDrawer × List DrawOp,
      (∀ r ∈ buf, (∃ p, p ∈ lanes ∧ r.oRec.keyCode = p.1) ∨ r.tag ∈ st.1.aDrew) →
      ∀ r ∈ buf, r.tag ∈ (lanes.foldl (drawLane ms buf) st).1.aDrew := by
  induction lanes with
  | nil =>
    intro st h r hr
    rcases h r hr with ⟨p, hp, _⟩ | h2
    · cases hp
    · exact h2
  | cons q t ih =>
    intro st h r hr
    rw [List.foldl_cons]
    apply ih _ _ r hr
    intro r2 hr2
    rcases h r2 hr2 with ⟨p, hp, hkc⟩ | h2
    · rcases List.mem_cons.mp hp with hq | hq
      · subst hq
        exact Or.inr (drawLane_covers ms buf st p r2 hr2 hkc)
      · exact Or.inl ⟨p, hq, hkc⟩
    · exact Or.inr (drawLane_aDrew_mono ms buf st q r2.tag h2)

theorem foldLanes_noop (ms : Int) (buf : List TRec)
    (lanes : List (Nat × String)) :
    ∀ st : LogDrawer × List DrawOp,
      (∀ p ∈ lanes, p.1 ∈ st.1.lanes) → (∀ r ∈ buf, r.tag ∈ st.1.aDrew) →
      lanes.foldl (drawLane ms buf) st = st := by
  induction lanes with
  | nil => intro st _ _; rfl
  | cons q t ih =>
    intro st h1 h2
    rw [List.foldl_cons,
      drawLane_noop (h1 q (List.mem_cons_self q t)) h2]
    exact ih st (fun p hp => h1 p (List.mem_cons_of_mem q hp)) h2

theorem mem_lanePairsAux_of_mem_acc (buf : List TRec) :
    ∀ (acc : List (Nat × String)) (p : Nat × String), p ∈ acc →
      p ∈ lanePairsAux acc buf := by
  induction buf with
  | nil => intro acc p h; exact h
  | cons r t ih =>
    intro acc p h
    rw [lanePairsAux]
    cases ha : assoc acc r.oRec.keyCode with
    | some v => simpa [ha] using ih acc p h
    | none => simpa [ha] using ih _ p (List.mem_append_left _ h)

theorem lanePairsAux_complete (buf : List TRec) :
    ∀ (acc : List (Nat × String)) (kc : Nat),
      (∃ r, r ∈ buf ∧ r.oRec.keyCode = kc) →
      ∃ v, (kc, v) ∈ lanePairsAux acc buf := by
  induction buf with
  | nil =>
    intro acc kc h
    rcases h with ⟨r, hr, _⟩
    cases hr
  | cons r t ih =>
    intro acc kc h
    rcases h with ⟨r2, hr2, hkc⟩
    rcases List.mem_cons.mp hr2 with hh | hh
    · subst hh
      subst hkc
      rw [lanePairsAux]
      cases ha : assoc acc r2.oRec.keyCode with
      | some v =>
        exact ⟨v, mem_lanePairsAux_of_mem_acc t acc _ (assoc_mem ha)⟩
      | none =>
        exact ⟨r2.oRec.key, mem_lanePairsAux_of_mem_acc t _ _
          (List.mem_append_right _ (List.mem_singleton.mpr rfl))⟩
    · rw [lanePairsAux]
      exact ih _ kc ⟨r2, hh, hkc⟩

theorem mem_insertAsc (p q : Nat × String) (l : List (Nat × String)) :
    p ∈ insertAsc q l ↔ p = q ∨ p ∈ l := by
  induction l with
  | nil => simp [insertAsc]
  | cons x t ih =>
    rw [insertAsc]
    split_ifs
    · simp
    · rw [List.mem_cons, ih, List.mem_cons]
      tauto

theorem mem_sortAsc (p : Nat × String) (l : List (Nat × String)) :
    p ∈ sortAsc l ↔ p ∈ l := by
  induction l with
  | nil => simp [sortAsc]
  | cons x t ih =>
    rw [sortAsc, mem_insertAsc, ih, List.mem_cons]

theorem mem_collectLanes_of_mem_buf (buf : List TRec) (r : TRec) (hr : r ∈ buf) :
    ∃ v, (r.oRec.keyCode, v) ∈ collectLanes buf := by
  rcases lanePairsAux_complete buf [] r.oRec.keyCode ⟨r, hr, rfl⟩ with ⟨v, hv⟩
  exact ⟨v, (mem_sortAsc _ _).mpr hv⟩

theorem pairwise_insertAsc (p : Nat × String) (l : List (Nat × String))
    (h : l.Pairwise (fun a b => a.1 ≤ b.1)) :
    (insertAsc p l).Pairwise (fun a b => a.1 ≤ b.1) := by
  induction l with
  | nil => simp [insertAsc]
  | cons q t ih =>
    rw [List.pairwise_cons] at h
    rw [insertAsc]
    split_ifs with hle
    · rw [List.pairwise_cons]
      refine ⟨?_, List.pairwise_cons.mpr h⟩
      intro x hx
      rcases List.mem_cons.mp hx with hh | hh
      · subst hh; exact hle
      · exact le_trans hle (h.1 x hh)
    · rw [List.pairwise_cons]
      refine ⟨?_, ih h.2⟩
      intro x hx
      rcases (mem_insertAsc x p t).mp hx with hh | hh
      · subst hh; exact le_of_not_le hle
      · exact h.1 x hh

theorem pairwise_sortAsc (l : List (Nat × String)) :
    (sortAsc l).Pairwise (fun a b => a.1 ≤ b.1) := by
  induction l with
  | nil => simp [sortAsc]
  | cons p t ih => exact pairwise_insertAsc p _ ih

theorem perm_insertAsc (p : Nat × String) (l : List (Nat × String)) :
    (insertAsc p l).Perm (p :: l) := by
  induction l with
  | nil => rfl
  | cons q t ih =>
    rw [insertAsc]
    split_ifs
    · rfl
    · exact (ih.cons q).trans (List.Perm.swap p q t)

theorem perm_sortAsc (l : List (Nat × String)) : (sortAsc l).Perm l := by
  induction l with
  | nil => rfl
  | cons p t ih => exact (perm_insertAsc p (sortAsc t)).trans (ih.cons p)

theorem lanePairsAux_nodupKeys (buf : List TRec) :
    ∀ acc : List (Nat × String), (acc.map Prod.fst).Nodup →
      ((lanePairsAux acc buf).map Prod.fst).Nodup := by
  induction buf with
  | nil => intro acc h; exact h
  | cons r t ih =>
    intro acc h
    rw [lanePairsAux]
    cases ha : assoc acc r.oRec.keyCode with
    | some v => exact ih acc h
    | none =>
      apply ih
      rw [List.map_append]
      simp only [List.map_cons, List.map_nil]
      rw [List.nodup_append]
      refine ⟨h, List.nodup_singleton _, ?_⟩
      intro x hx
      simp only [List.mem_singleton]
      intro hxe
      subst hxe
      exact (assoc_none_iff acc r.oRec.keyCode).mp ha hx

theorem lanePairs_nodupKeys (buf : List TRec) :
    ((lanePairs buf).map Prod.fst).Nodup :=
  lanePairsAux_nodupKeys buf [] (by simp)

theorem collectLanes_nodupKeys (buf : List TRec) :
    ((collectLanes buf).map Prod.fst).Nodup :=
  ((perm_sortAsc (lanePairs buf)).map Prod.fst).nodup_iff.mpr
    (lanePairs_nodupKeys buf)

theorem assoc_append_of_some {α β : Type} [DecidableEq α]
    {l : List (α × β)} {k : α} {v : β} (l2 : List (α × β))
    (h : assoc l k = some v) : assoc (l ++ l2) k = some v := by
  induction l with
  | nil => simp [assoc] at h
  | cons p t ih =>
    by_cases hp : p.1 = k
    · simp only [assoc, if_pos hp] at h ⊢
      exact h
    · simp only [assoc, if_neg hp] at h ⊢
      exact ih h

theorem assoc_append_of_none {α β : Type} [DecidableEq α]
    {l : List (α × β)} {k : α} (l2 : List (α × β))
    (h : assoc l k = none) : assoc (l ++ l2) k = assoc l2 k := by
  induction l with
  | nil => rfl
  | cons p t ih =>
    by_cases hp : p.1 = k
    · simp [assoc, if_pos hp] at h
    · simp only [assoc, if_neg hp] at h ⊢
      exact ih h

theorem assoc_lanePairsAux (buf : List TRec) :
    ∀ (acc : List (Nat × String)) (kc : Nat),
      assoc (lanePairsAux acc buf) kc =
        match assoc acc kc with
        | some v => some v
        | none => findLabel buf kc := by
  induction buf with
  | nil =>
    intro acc kc
    cases h : assoc acc kc <;> simp [lanePairsAux, findLabel, h]
  | cons r t ih =>
    intro acc kc
    rw [lanePairsAux]
    cases ha : assoc acc r.oRec.keyCode with
    | some w =>
      rw [ih]
      cases hak : assoc acc kc with
      | some v => rfl
      | none =>
        have hne : ¬ r.oRec.keyCode = kc := by
          intro h
          rw [h, hak] at ha
          cases ha
        simp [findLabel, hne]
    | none =>
      rw [ih]
      by_cases hk : r.oRec.keyCode = kc
      · subst hk
        rw [assoc_append_of_none _ ha]
        simp [assoc, findLabel, ha]
      · cases hak : assoc acc kc with
        | some v =>
          rw [assoc_append_of_some _ hak]
        | none =>
          rw [assoc_append_of_none _ hak]
          simp [assoc, findLabel, hk]

theorem assoc_lanePairs (buf : List TRec) (kc : Nat) :
    assoc (lanePairs buf) kc = findLabel buf kc := by
  rw [lanePairs, assoc_lanePairsAux]
  rfl

theorem mem_collectLanes_iff (buf : List TRec) (kc : Nat) (lbl : String) :
    (kc, lbl) ∈ collectLanes buf ↔ findLabel buf kc = some lbl := by
  rw [collectLanes, mem_sortAsc,
    mem_iff_assoc (lanePairs_nodupKeys buf), assoc_lanePairs]

theorem newLanesOf_append (l1 l2 : List DrawOp) :
    newLanesOf (l1 ++ l2) = newLanesOf l1 ++ newLanesOf l2 :=
  List.filterMap_append l1 l2 _

theorem drawOneRec_newLanes (ms : Int) (st : LogDrawer × List DrawOp) (r : TRec) :
    newLanesOf (drawOneRec ms st r).2 = newLanesOf st.2 := by
  show newLanesOf (st.2 ++ [_, _]) = newLanesOf st.2
  rw [newLanesOf_append]
  simp [newLanesOf]

theorem foldl_drawOneRec_newLanes (ms : Int) (l : List TRec) :
    ∀ st : LogDrawer × List DrawOp,
      newLanesOf ((l.foldl (drawOneRec ms) st).2) = newLanesOf st.2 := by
  induction l with
  | nil => intro st; rfl
  | cons x t ih =>
    intro st
    rw [List.foldl_cons, ih, drawOneRec_newLanes]

theorem drawLane_fresh (ms : Int) (buf : List TRec)
    (st : LogDrawer × List DrawOp) (lane : Nat × String)
    (h : lane.1 ∉ st.1.lanes) :
    newLanesOf (drawLane ms buf st lane).2 = newLanesOf st.2 ++ [lane] ∧
    (drawLane ms buf st lane).1.lanes = st.1.lanes ++ [lane.1] := by
  rw [drawLane, drawNewRecs]
  constructor
  · rw [foldl_drawOneRec_newLanes]
    rw [ensureLane, if_neg h]
    rw [newLanesOf_append]
    simp [newLanesOf]
  · rw [foldl_drawOneRec_lanes]
    rw [ensureLane, if_neg h]

theorem foldLanes_fresh (ms : Int) (buf : List TRec)
    (pairs : List (Nat × String)) :
    ∀ st : LogDrawer × List DrawOp, (pairs.map Prod.fst).Nodup →
      (∀ p ∈ pairs, p.1 ∉ st.1.lanes) →
      newLanesOf ((pairs.foldl (drawLane ms buf) st).2) =
        newLanesOf st.2 ++ pairs := by
  induction pairs with
  | nil => intro st _ _; simp
  | cons q t ih =>
    intro st hnd hfresh
    rw [List.map_cons, List.nodup_cons] at hnd
    rw [List.foldl_cons]
    have hq := drawLane_fresh ms buf st q (hfresh q (List.mem_cons_self q t))
    rw [ih _ hnd.2 ?fresh, hq.1, List.append_assoc]
    · rfl
    case fresh =>
      intro p hp
      rw [hq.2]
      intro hmem
      rcases List.mem_append.mp hmem with hh | hh
      · exact hfresh p (List.mem_cons_of_mem q hp) hh
      · rw [List.mem_singleton] at hh
        exact hnd.1 (hh ▸ List.mem_map_of_mem Prod.fst hp)

/-!  Claim theorems. -/

/-- C1 counterexample: the claim says two distinct keyIds (the numeric
key-codes, per the spec data model) are tracked by distinct open
intervals, and that a keyId with an unmatched KeyDown has an
OpenInterval.  The code keys _keysDown by the key label sKey instead:
pressing keyCode 49 and keyCode 97 (digit row 1 and keypad 1, both
labeled 1) yields a single open interval, and a single KeyUp carrying
keyCode 97 closes it, producing one record whose start stems from the
keyCode 49 press. KeyId 49 retains no interval although its KeyDown was
never matched. -/
theorem claim_C1_counterexample :
    (runTrace c1Trace).keysDown = [("1", 0)] ∧
    (runTrace c1TraceUp).aRecord =
      [{ key := "1", keyCode := 97, start := 0, endOff := 200 }] ∧
    (runTrace c1TraceUp).keysDown = [] := by decide

/-- C1 (amended): per key label, at most one open interval exists at any
time, and a label has an open interval exactly when a well-formed
KeyDown with that label has been observed with no subsequent KeyUp with
that label; distinct labels get distinct intervals, but distinct
keyCodes sharing a label share one interval slot. -/
theorem claim_C1_amended (tr : List Action) (k : String) :
    countFor (runTrace tr).keysDown k ≤ 1 ∧
    (assoc (runTrace tr).keysDown k).isSome = tracksOpen tr k := by
  constructor
  · exact countFor_runTrace tr PoC.Logger.init
      (fun k2 => by simp [PoC.Logger.init, countFor, List.filter]) k
  · rw [runTrace, tracksOpen, assoc_runTrace]
    rfl

/-- C2: the event sequence KeyDown(A) at offset 0, KeyUp(A) at 100,
KeyDown(A) at 150, KeyUp(A) at 200 produces records [{A,0,100},
{A,150,200}], and drawing them at 5 ms per pixel emits for lane A the
segments gap 0px, chunk 20px, gap 10px, chunk 10px in that order. -/
theorem claim_C2 :
    (runTrace c2Trace).aRecord = c2Records ∧
    (LogDrawer.draw (LogDrawer.init (some 5))
        (some { aRecord := some c2Records })).2 =
      [.newLane 65 "A", .gap 65 0, .chunk 65 20, .gap 65 10, .chunk 65 10] := by
  refine ⟨by decide, ?_⟩
  simp +decide [LogDrawer.draw, drawRecords, c2Records, assoc, eraseAssoc,
    setAssoc, tagRecords, sortByStart, insertByStart, collectLanes, lanePairs,
    lanePairsAux, sortAsc, insertAsc, LogDrawer.init, jsOrDefault, drawLane,
    drawNewRecs, ensureLane, drawOneRec, List.enum, List.filter, List.foldl]
  norm_num

/-- C3 counterexample: the claim says every stray KeyUp emits an
observable warning signal, but the treSaysPoC.js implementation (cited
by the claim) returns silently: its endRecord on a fresh logger emits no
warning, appends no record, and leaves the state unchanged. -/
theorem claim_C3_counterexample :
    PoC.Logger.endRecord PoC.Logger.init (some "x") (some 88) 1000 =
      (PoC.Logger.init, []) := by decide

/-- C3 (amended): a stray KeyUp appends zero records, throws nothing and
leaves the logger state unchanged in both implementations; the part_000
implementation reports it on the console warning channel, while the
treSaysPoC.js implementation returns silently with no warning. -/
theorem claim_C3_amended (L : PoC.Logger) (LP : Part000.Logger)
    (k : String) (kc : Nat) (t : Int) (hk : k ≠ "")
    (h1 : assoc L.keysDown k = none) (h2 : assoc LP.keysDown k = none)
    (hp : LP.isPaused = false) :
    PoC.Logger.endRecord L (some k) (some kc) t = (L, []) ∧
    Part000.Logger.endRecord LP (some k) (some kc) t = (LP, [(k, kc)]) := by
  constructor
  · simp [PoC.Logger.endRecord, hk, h1]
  · simp [Part000.Logger.endRecord, hk, h1, h2, hp]

/-- C3 witness: the amended claim applied to a stray release of the key
x on fresh recorders. -/
theorem claim_C3_witness :
    PoC.Logger.endRecord PoC.Logger.init (some "x") (some 88) 1500 =
      (PoC.Logger.init, []) ∧
    Part000.Logger.endRecord Part000.Logger.init (some "x") (some 88) 1500 =
      (Part000.Logger.init, [("x", 88)]) :=
  claim_C3_amended PoC.Logger.init Part000.Logger.init "x" 88 1500
    (by decide) (by decide) (by decide) (by decide)

/-- C5 counterexample: on records whose sorted copy encounters keyCode
66 first, the reduce accumulator (lanePairs, which does preserve
first-encounter order) lists 66 before 65, but Object.values enumerates
the numeric keys in ascending order, so the lanes are created and
processed as 65 then 66 — not in first-encounter order as the claim
states. -/
theorem claim_C5_counterexample :
    lanePairs (sortByStart (tagRecords c5Records)) = [(66, "b"), (65, "a")] ∧
    collectLanes (sortByStart (tagRecords c5Records)) = [(65, "a"), (66, "b")] ∧
    newLanesOf (LogDrawer.draw (LogDrawer.init (some 5))
        (some { aRecord := some c5Records })).2 = [(65, "a"), (66, "b")] ∧
    collectLanes (sortByStart (tagRecords c5Records)) ≠
      lanePairs (sortByStart (tagRecords c5Records)) := by
  refine ⟨by decide, by decide, ?_, by decide⟩
  simp +decide [LogDrawer.draw, drawRecords, c5Records, assoc, eraseAssoc,
    setAssoc, tagRecords, sortByStart, insertByStart, collectLanes, lanePairs,
    lanePairsAux, sortAsc, insertAsc, LogDrawer.init, jsOrDefault, drawLane,
    drawNewRecs, ensureLane, drawOneRec, newLanesOf, List.enum, List.filter,
    List.foldl]

/-- C6 counterexample: the claim says a further KeyDown for a keyId with
an already-open interval is a no-op, but the no-op guard is keyed by the
key label, not the keyId: with keyId 65 held as the label a (an open,
unmatched KeyDown for keyId 65), a further KeyDown carrying the same
keyId 65 but the label A passes the guard and opens a second interval,
changing the state. -/
theorem claim_C6_counterexample :
    c6Open.keysDown = [("a", 0)] ∧
    (runTrace c6IdTrace).keysDown = [("A", 20), ("a", 0)] := by decide

/-- C6 (amended): the duplicate-press no-op is per key label, not per
keyId: a KeyDown whose truthy label already has an open interval is a
no-op that the source does not report; two consecutive KeyDown of the
key a leave exactly one open interval, and a single subsequent KeyUp
leaves exactly one record.  A further KeyDown for the same keyId under a
different label is not covered by the guard (see the counterexample). -/
theorem claim_C6 (L : PoC.Logger) (k : String) (kc : Nat) (t : Int)
    (hopen : (assoc L.keysDown k).isSome = true) :
    PoC.Logger.startRecord L (some k) (some kc) t = L ∧
    (runTrace c6Trace).keysDown = [("a", 0)] ∧
    (runTrace c6TraceUp).aRecord =
      [{ key := "a", keyCode := 65, start := 0, endOff := 100 }] ∧
    (runTrace c6TraceUp).keysDown = [] := by
  refine ⟨?_, by decide, by decide, by decide⟩
  simp only [PoC.Logger.startRecord]
  split_ifs with h
  · rfl
  · cases ha : assoc L.keysDown k with
    | none => rw [ha] at hopen; simp at hopen
    | some v => simp [ha]

/-- C6 witness: the amended duplicate-press no-op applied to a logger
holding the key a down. -/
theorem claim_C6_witness :
    PoC.Logger.startRecord c6Open (some "a") (some 65) 1005 = c6Open ∧
    (runTrace c6Trace).keysDown = [("a", 0)] ∧
    (runTrace c6TraceUp).aRecord =
      [{ key := "a", keyCode := 65, start := 0, endOff := 100 }] ∧
    (runTrace c6TraceUp).keysDown = [] :=
  claim_C6 c6Open "a" 65 1005 (by decide)

/-- C7: reset clears the session clock, the open intervals, the records
and the raw log (the reset state equals the freshly constructed one),
and the first KeyDown after a reset re-anchors the session clock to the
time of that call, whatever the previous state was. -/
theorem claim_C7 (L : PoC.Logger) (key : Option String) (kc : Nat) (t : Int) :
    PoC.Logger.reset L = PoC.Logger.init ∧
    (PoC.Logger.keyStart (PoC.Logger.reset L)
        { type := "keydown", keyCode := some kc, key := key } t).zero = some t := by
  refine ⟨rfl, ?_⟩
  simp only [PoC.Logger.reset, PoC.Logger.keyStart, PoC.Logger.logEvent,
    anchorZero]
  cases key with
  | none => rfl
  | some s =>
    simp only [PoC.Logger.startRecord]
    split_ifs with h
    · rfl
    · simp [assoc, anchorZero]

/-- C8: for both implementations, an onKeyDown or onKeyUp call appends a
RawEvent to the raw log exactly when the event carries a keyCode (the
part_000 logger taken unpaused): an event with keyCode is raw-logged
unconditionally, whatever the open-interval state, and an event without
keyCode is dropped silently, leaving the whole logger state, hence also
the records, untouched. -/
theorem claim_C8 (L : PoC.Logger) (LP : Part000.Logger) (e : KeyEvent)
    (t : Int) (hp : LP.isPaused = false) :
    (PoC.Logger.keyStart L e t).aLogger = L.aLogger ++ rawOf L.zero e t ∧
    (PoC.Logger.keyEnd L e t).1.aLogger = L.aLogger ++ rawOf L.zero e t ∧
    (rawOf L.zero e t = [] ↔ e.keyCode = none) ∧
    (e.keyCode = none →
      PoC.Logger.keyStart L e t = L ∧ PoC.Logger.keyEnd L e t = (L, [])) ∧
    (Part000.Logger.keyStart LP e t).aLogger = LP.aLogger ++ rawOf LP.zero e t ∧
    (Part000.Logger.keyEnd LP e t).1.aLogger = LP.aLogger ++ rawOf LP.zero e t ∧
    (e.keyCode = none →
      Part000.Logger.keyStart LP e t = LP ∧
        Part000.Logger.keyEnd LP e t = (LP, [])) := by
  refine ⟨?_, ?_, ?_, ?_, ?_, ?_, ?_⟩
  · rw [PoC.Logger.keyStart, PoC.startRecord_aLogger, PoC.logEvent_aLogger]
  · rw [PoC.Logger.keyEnd, PoC.endRecord_aLogger, PoC.logEvent_aLogger]
  · cases h : e.keyCode <;> simp [rawOf, h]
  · intro h
    have hL : PoC.Logger.logEvent L e t = L := by
      simp [PoC.Logger.logEvent, h]
    constructor
    · rw [PoC.Logger.keyStart, hL, h]
      cases e.key <;> rfl
    · rw [PoC.Logger.keyEnd, hL, h]
      cases e.key <;> rfl
  · rw [Part000.Logger.keyStart, Part000.startRecord_aLogger_p000,
      Part000.logEvent_aLogger_p000 LP e t hp]
  · rw [Part000.Logger.keyEnd, Part000.endRecord_aLogger_p000,
      Part000.logEvent_aLogger_p000 LP e t hp]
  · intro h
    have hL : Part000.Logger.logEvent LP e t = LP := by
      simp [Part000.Logger.logEvent, h, hp]
    constructor
    · rw [Part000.Logger.keyStart, hL, h]
      cases e.key <;> simp [Part000.Logger.startRecord, hp]
    · rw [Part000.Logger.keyEnd, hL, h]
      cases e.key <;> simp [Part000.Logger.endRecord, hp]

/-- C8 witness: the raw-log characterization applied to fresh recorders,
a well-formed KeyDown of the key a, and time 1000. -/
theorem claim_C8_witness :
    ((PoC.Logger.keyStart PoC.Logger.init
        { type := "keydown", keyCode := some 65, key := some "a" } 1000).aLogger =
      PoC.Logger.init.aLogger ++
        rawOf PoC.Logger.init.zero
          { type := "keydown", keyCode := some 65, key := some "a" } 1000) ∧
    ((PoC.Logger.keyEnd PoC.Logger.init
        { type := "keydown", keyCode := some 65, key := some "a" } 1000).1.aLogger =
      PoC.Logger.init.aLogger ++
        rawOf PoC.Logger.init.zero
          { type := "keydown", keyCode := some 65, key := some "a" } 1000) ∧
    (rawOf PoC.Logger.init.zero
        { type := "keydown", keyCode := some 65, key := some "a" } 1000 = [] ↔
      ({ type := "keydown", keyCode := some 65, key := some "a" } : KeyEvent).keyCode
        = none) ∧
    (({ type := "keydown", keyCode := some 65, key := some "a" } : KeyEvent).keyCode
        = none →
      PoC.Logger.keyStart PoC.Logger.init
          { type := "keydown", keyCode := some 65, key := some "a" } 1000 =
        PoC.Logger.init ∧
      PoC.Logger.keyEnd PoC.Logger.init
          { type := "keydown", keyCode := some 65, key := some "a" } 1000 =
        (PoC.Logger.init, [])) ∧
    ((Part000.Logger.keyStart Part000.Logger.init
        { type := "keydown", keyCode := some 65, key := some "a" } 1000).aLogger =
      Part000.Logger.init.aLogger ++
        rawOf Part000.Logger.init.zero
          { type := "keydown", keyCode := some 65, key := some "a" } 1000) ∧
    ((Part000.Logger.keyEnd Part000.Logger.init
        { type := "keydown", keyCode := some 65, key := some "a" } 1000).1.aLogger =
      Part000.Logger.init.aLogger ++
        rawOf Part000.Logger.init.zero
          { type := "keydown", keyCode := some 65, key := some "a" } 1000) ∧
    (({ type := "keydown", keyCode := some 65, key := some "a" } : KeyEvent).keyCode
        = none →
      Part000.Logger.keyStart Part000.Logger.init
          { type := "keydown", keyCode := some 65, key := some "a" } 1000 =
        Part000.Logger.init ∧
      Part000.Logger.keyEnd Part000.Logger.init
          { type := "keydown", keyCode := some 65, key := some "a" } 1000 =
        (Part000.Logger.init, [])) :=
  claim_C8 PoC.Logger.init Part000.Logger.init
    { type := "keydown", keyCode := some 65, key := some "a" } 1000 (by decide)

/-- C9: while the part_000 logger is paused, logEvent, startRecord and
endRecord (hence the onKeyDown and onKeyUp handlers) are no-ops that
keep the raw log, the records, the open intervals and the session clock
unchanged and emit no warning; and raising the pause flag itself clears
none of the existing state. -/
theorem claim_C9 (LP : Part000.Logger) (e : KeyEvent) (k : Option String)
    (kc : Option Nat) (t : Int) (hp : LP.isPaused = true) :
    Part000.Logger.logEvent LP e t = LP ∧
    Part000.Logger.startRecord LP k kc t = LP ∧
    Part000.Logger.endRecord LP k kc t = (LP, []) ∧
    Part000.Logger.keyStart LP e t = LP ∧
    Part000.Logger.keyEnd LP e t = (LP, []) ∧
    (∀ M : Part000.Logger,
      (Part000.Logger.setPaused M true).aLogger = M.aLogger ∧
      (Part000.Logger.setPaused M true).aRecord = M.aRecord ∧
      (Part000.Logger.setPaused M true).keysDown = M.keysDown ∧
      (Part000.Logger.setPaused M true).zero = M.zero) := by
  have hle : Part000.Logger.logEvent LP e t = LP := by
    simp [Part000.Logger.logEvent, hp]
  have hsr : ∀ k2 kc2, Part000.Logger.startRecord LP k2 kc2 t = LP := by
    intro k2 kc2; simp [Part000.Logger.startRecord, hp]
  have her : ∀ k2 kc2, Part000.Logger.endRecord LP k2 kc2 t = (LP, []) := by
    intro k2 kc2; simp [Part000.Logger.endRecord, hp]
  refine ⟨hle, hsr k kc, her k kc, ?_, ?_, ?_⟩
  · rw [Part000.Logger.keyStart, hle, hsr]
  · rw [Part000.Logger.keyEnd, hle, her]
  · intro M
    exact ⟨rfl, rfl, rfl, rfl⟩

/-- C9 witness: the paused no-op property applied to a paused logger
carrying prior records, an open interval, and an anchored clock. -/
theorem claim_C9_witness :
    Part000.Logger.logEvent c9Paused
        { type := "keydown", keyCode := some 65, key := some "a" } 2000 =
      c9Paused ∧
    Part000.Logger.startRecord c9Paused (some "a") (some 65) 2000 = c9Paused ∧
    Part000.Logger.endRecord c9Paused (some "q") (some 81) 2000 = (c9Paused, []) ∧
    Part000.Logger.keyStart c9Paused
        { type := "keydown", keyCode := some 65, key := some "a" } 2000 =
      c9Paused ∧
    Part000.Logger.keyEnd c9Paused
        { type := "keydown", keyCode := some 65, key := some "a" } 2000 =
      (c9Paused, []) ∧
    (∀ M : Part000.Logger,
      (Part000.Logger.setPaused M true).aLogger = M.aLogger ∧
      (Part000.Logger.setPaused M true).aRecord = M.aRecord ∧
      (Part000.Logger.setPaused M true).keysDown = M.keysDown ∧
      (Part000.Logger.setPaused M true).zero = M.zero) := by
  have h := claim_C9 c9Paused
    { type := "keydown", keyCode := some 65, key := some "a" }
    (some "a") (some 65) 2000 (by decide)
  have h2 := claim_C9 c9Paused
    { type := "keydown", keyCode := some 65, key := some "a" }
    (some "q") (some 81) 2000 (by decide)
  exact ⟨h.1, h.2.1, h2.2.2.1, h.2.2.2.1, h.2.2.2.2.1, h.2.2.2.2.2⟩

/-- C10: draw called on a missing logger or on a logger whose aRecord
field is not an array is a total no-op: it returns without error, draws
nothing, and leaves the aDrew set, the mLastEnds map and the lanes
untouched. -/
theorem claim_C10 (d : LogDrawer) :
    LogDrawer.draw d none = (d, []) ∧
    LogDrawer.draw d (some { aRecord := none }) = (d, []) :=
  ⟨rfl, rfl⟩

/-- C4: a second draw call on an unchanged record set is a complete
no-op: it emits no gap, chunk or lane segment at all and returns the
drawer state — aDrew, every mLastEnds entry and the lanes — unchanged,
purely because every record of the sorted buffer is already a member of
aDrew and every lane element already exists. -/
theorem claim_C4 (d : LogDrawer) (rs : List Rec) :
    LogDrawer.draw (LogDrawer.draw d (some { aRecord := some rs })).1
        (some { aRecord := some rs }) =
      ((LogDrawer.draw d (some { aRecord := some rs })).1, []) := by
  show drawRecords (drawRecords d rs).1 rs = ((drawRecords d rs).1, [])
  have hfirst :
      drawRecords d rs =
        (collectLanes (sortByStart (tagRecords rs))).foldl
          (drawLane d.MS_PER_PX (sortByStart (tagRecords rs))) (d, []) := rfl
  have hcover : ∀ r ∈ sortByStart (tagRecords rs),
      r.tag ∈ (drawRecords d rs).1.aDrew := by
    rw [hfirst]
    apply foldLanes_covers
    intro r hr
    left
    rcases mem_collectLanes_of_mem_buf (sortByStart (tagRecords rs)) r hr with ⟨v, hv⟩
    exact ⟨(r.oRec.keyCode, v), hv, rfl⟩
  have hlanes : ∀ p ∈ collectLanes (sortByStart (tagRecords rs)),
      p.1 ∈ (drawRecords d rs).1.lanes := by
    rw [hfirst]
    intro p hp
    exact foldLanes_lanes_mem _ _ _ _ p hp
  show (collectLanes (sortByStart (tagRecords rs))).foldl
      (drawLane (drawRecords d rs).1.MS_PER_PX (sortByStart (tagRecords rs)))
      ((drawRecords d rs).1, []) = ((drawRecords d rs).1, [])
  exact foldLanes_noop _ _ _ _ hlanes hcover

/-- C5 (amended): the lane set is derived from the record copy sorted by
ascending start offset, each keyCode paired with the label of its first
occurrence in that sorted copy and no keyCode listed twice, but the
lanes are created and processed in ascending numeric keyCode order (the
ECMAScript enumeration order of the integer-keyed accumulator object),
not in first-encounter order: the lane creations of a draw on a fresh
drawer appear exactly in collectLanes order. -/
theorem claim_C5_amended (rs : List Rec) (opt : Option Int) (kc : Nat)
    (lbl : String) :
    (collectLanes (sortByStart (tagRecords rs))).Pairwise
      (fun p q => p.1 ≤ q.1) ∧
    ((collectLanes (sortByStart (tagRecords rs))).map Prod.fst).Nodup ∧
    ((kc, lbl) ∈ collectLanes (sortByStart (tagRecords rs)) ↔
      findLabel (sortByStart (tagRecords rs)) kc = some lbl) ∧
    newLanesOf (LogDrawer.draw (LogDrawer.init opt)
        (some { aRecord := some rs })).2 =
      collectLanes (sortByStart (tagRecords rs)) := by
  refine ⟨pairwise_sortAsc _, collectLanes_nodupKeys _,
    mem_collectLanes_iff _ kc lbl, ?_⟩
  show newLanesOf (drawRecords (LogDrawer.init opt) rs).2 = _
  rw [drawRecords]
  rw [foldLanes_fresh _ _ _ _ (collectLanes_nodupKeys _) (by intro p hp; simp [LogDrawer.init])]
  rfl

end TreSays
